import Mathlib

/-!
Shallow embedding of the Texture-Critter texture-synthesis engine
(`texture.py` and `expand.py`) in Lean 4, together with theorems settling
the specification claims about it.

Conventions of the embedding:
* Python tuples of channel bytes become `List ℤ` (`Pixel`).
* Python `float('inf')` sentinel scores become `Score.inf`; finite float
  scores are modelled as exact rationals (`Score.val q`).
* Python exceptions / failed `assert` statements become `Option.none`
  (the surrounding computation aborts).
* Python list indexing with possibly negative indices (which wraps) is
  modelled by `pyIdx`; indexing that is guarded by a bounds test in the
  source is modelled with `List.getD` after `Int.toNat`.
-/

namespace TextureCritter

/-- A pixel: tuple of channel values (unsigned bytes in the program,
modelled as integers). -/
abbrev Pixel : Type := List ℤ

/-- A region-comparison score: `inf` models Python `float('inf')`,
`val q` models the finite value `float(total)/len(region)` (exactly, as a
rational). -/
inductive Score where
  | inf : Score
  | val : ℚ → Score
deriving DecidableEq

/-- Strict order on scores, mirroring Python `<` on floats where `inf` is
greater than every finite value and not less than itself. -/
def scoreLt : Score → Score → Bool
  | Score.inf, _ => false
  | Score.val _, Score.inf => true
  | Score.val a, Score.val b => decide (a < b)

/-- Non-strict order on scores. -/
def scoreLe : Score → Score → Bool
  | Score.inf, Score.inf => true
  | Score.inf, Score.val _ => false
  | Score.val _, Score.inf => true
  | Score.val a, Score.val b => decide (a ≤ b)

/-- Python lexicographic `<` on integer tuples (used by `min` to break
ties between equal-score `(weight, pixel)` choices). -/
def listLt : List ℤ → List ℤ → Bool
  | _, [] => false
  | [], _ :: _ => true
  | a :: as, b :: bs => if a < b then true else if a = b then listLt as bs else false

/-- Python `<` on `(weight, pixel)` tuples: compare weights first, then
pixels lexicographically. -/
def choiceLt (a b : Score × Pixel) : Bool :=
  if scoreLt a.1 b.1 then true
  else if a.1 = b.1 then listLt a.2 b.2 else false

/-- Python `min` over a list of `(weight, pixel)` tuples: returns the
first minimal element; `none` models the `ValueError` on an empty list. -/
def pyMin : List (Score × Pixel) → Option (Score × Pixel)
  | [] => none
  | c :: cs => some (cs.foldl (fun m x => if choiceLt x m then x else m) c)

/-- Python `range(a, b)` as a list of integers. -/
def pyRange (a b : ℤ) : List ℤ :=
  (List.range (b - a).toNat).map (fun k : ℕ => a + (k : ℤ))

/-- Python list-index resolution for a list of length `n`: a nonnegative
index must be `< n`; a negative index wraps by `+ n`; anything else is an
`IndexError` (`none`). -/
def pyIdx (n : ℕ) (i : ℤ) : Option ℕ :=
  if 0 ≤ i ∧ i < (n : ℤ) then some i.toNat
  else if -(n : ℤ) ≤ i ∧ i < 0 then some (i + n).toNat
  else none

/-- `Texture.alpha_modes`: image modes treated as carrying an alpha
channel. -/
def alphaModes : List String := ["LA", "RGBA", "RGBa", "P"]

/-- The `Texture` object: `width`/`height` are `pic.size`, `picMode` is
`pic.mode` (the backing PIL image's mode string), `bpp` the channel
count, `pixels` the `[x][y]`-indexed pixel tuples, `valid` the
`[x][y]`-indexed validity flags. -/
structure Texture where
  width : ℕ
  height : ℕ
  picMode : String
  bpp : ℕ
  pixels : List (List Pixel)
  valid : List (List Bool)
deriving DecidableEq

/-- Well-formedness of the backing lists with respect to `pic.size`
(guaranteed by both constructors in the program). -/
abbrev TexWF (t : Texture) : Prop :=
  t.pixels.length = t.width ∧ (∀ c ∈ t.pixels, c.length = t.height) ∧
  t.valid.length = t.width ∧ (∀ c ∈ t.valid, c.length = t.height)

/-- `Texture._pixelList`: chunks the flat byte buffer into `bpp`-tuples,
filling `pixlist[x][y]` in `y`-outer/`x`-inner order, so the chunk for
`(x, y)` starts at flat offset `(y*w + x)*bpp`.  `none` models the failed
length `assert`. -/
def pixelList (bpp w h : ℕ) (b : List ℤ) : Option (List (List Pixel)) :=
  if b.length = bpp * w * h then
    some ((List.range w).map (fun x =>
      (List.range h).map (fun y => (b.drop ((y * w + x) * bpp)).take bpp)))
  else none

/-- `Texture.__init__`: classifies the image mode (alpha modes are
canonicalised to RGBA / 4 channels, others to RGB / 3), unpacks the
converted byte buffer (the PIL `convert` call that produces `b` is the
external codec), and marks every pixel valid. -/
def Texture.init (mode : String) (w h : ℕ) (b : List ℤ) : Option Texture :=
  let m := if mode ∈ alphaModes then "RGBA" else "RGB"
  let bpp := if mode ∈ alphaModes then 4 else 3
  (pixelList bpp w h b).map (fun px =>
    { width := w, height := h, picMode := m, bpp := bpp, pixels := px,
      valid := List.replicate w (List.replicate h true) })

/-- `Texture._locTest`: whether `point + shift` lies inside the image. -/
def Texture.locTest (t : Texture) (point shift : ℤ × ℤ) : Bool :=
  decide (0 ≤ point.1 + shift.1 ∧ point.1 + shift.1 < (t.width : ℤ) ∧
          0 ≤ point.2 + shift.2 ∧ point.2 + shift.2 < (t.height : ℤ))

/-- Lookup of a validity flag at a (bounds-checked, hence nonnegative)
point in a validity mask. -/
def validAt (valid : List (List Bool)) (point : ℤ × ℤ) : Bool :=
  (valid.getD point.1.toNat []).getD point.2.toNat false

/-- `Texture.goodList`: keeps, in order, the shifts whose absolute
position is inside the image and flagged valid in `valid`. -/
def Texture.goodList (t : Texture) (centre : ℤ × ℤ) :
    List (ℤ × ℤ) → List (List Bool) → List (ℤ × ℤ)
  | [], _ => []
  | shift :: rest, valid =>
    let point := (centre.1 + shift.1, centre.2 + shift.2)
    if t.locTest point (0, 0) ∧ validAt valid point then
      shift :: t.goodList centre rest valid
    else t.goodList centre rest valid

/-- `Texture.getPixel`: asserts `_locTest(loc, shift)` (failure is
`none`), then reads `pixels[loc[0]+shift[0]][loc[1]+shift[1]]`. -/
def Texture.getPixel (t : Texture) (loc shift : ℤ × ℤ) : Option Pixel :=
  if t.locTest loc shift then
    some ((t.pixels.getD (loc.1 + shift.1).toNat []).getD (loc.2 + shift.2).toNat [])
  else none

/-- `Texture.setPixel`: asserts `_locTest(loc, shift)` and
`len(value) == bpp`, then overwrites the addressed pixel tuple. -/
def Texture.setPixel (t : Texture) (value : Pixel) (loc shift : ℤ × ℤ) :
    Option Texture :=
  if t.locTest loc shift ∧ value.length = t.bpp then
    some { t with pixels := t.pixels.set (loc.1 + shift.1).toNat
                    ((t.pixels.getD (loc.1 + shift.1).toNat []).set
                      (loc.2 + shift.2).toNat value) }
  else none

/-- `Texture.setValid`: performs `self.valid[loc[0]][loc[1]] = True` with
no bounds check of its own, so indexing follows Python semantics
(`pyIdx`): negative indices wrap, and only indices out of wrapping range
raise `IndexError` (`none`). -/
def Texture.setValid (t : Texture) (loc : ℤ × ℤ) : Option Texture :=
  match pyIdx t.valid.length loc.1 with
  | none => none
  | some x =>
    match pyIdx (t.valid.getD x []).length loc.2 with
    | none => none
    | some y =>
      some { t with valid := t.valid.set x ((t.valid.getD x []).set y true) }

/-- The pixel tuple stored at nonnegative grid position `(x, y)`. -/
def pixelAt (t : Texture) (x y : ℕ) : Pixel :=
  (t.pixels.getD x []).getD y []

/-- The validity flag stored at nonnegative grid position `(x, y)`. -/
def flagAt (t : Texture) (x y : ℕ) : Bool :=
  (t.valid.getD x []).getD y false

/-- `Texture.toImage`, up to the external `Image.frombytes` call: the
loop writes `pixels[x][y]` to flat index `x + y*width` (row-major with
`y` outer), and `itertools.chain.from_iterable` then flattens the pixel
tuples into the output byte buffer. -/
def toImageBytes (t : Texture) : List ℤ :=
  ((List.range t.height).flatMap (fun y =>
    (List.range t.width).map (fun x => pixelAt t x y))).flatten

/-- `SquareShape.__init__`: all shifts `(i, j)` with
`i, j ∈ range(-radius, radius+1)`, `i` outer. -/
def squareShape (radius : ℤ) : List (ℤ × ℤ) :=
  (pyRange (-radius) (radius + 1)).flatMap (fun i =>
    (pyRange (-radius) (radius + 1)).map (fun j => (i, j)))

/-- `EllShape.__init__`: shifts `(i, j)` with `j ∈ range(-radius, 1)`
outer, `i ∈ range(-radius, radius+1)` inner, filtered by
`j < 0 ∨ (j == 0 ∧ i < 0)`. -/
def ellShape (radius : ℤ) : List (ℤ × ℤ) :=
  (pyRange (-radius) 1).flatMap (fun j =>
    ((pyRange (-radius) (radius + 1)).filter
      (fun i => decide (j < 0) || (decide (j = 0) && decide (i < 0)))).map
      (fun i => (i, j)))

/-- `compare`: asserts equal channel counts (failure is `none`) then sums
squared channel differences. -/
def compare (pix1 pix2 : Pixel) : Option ℤ :=
  if pix1.length = pix2.length then
    some ((List.zipWith (fun a b => (a - b) ^ 2) pix1 pix2).sum)
  else none

/-- `compare3`: unchecked accesses to channels 0..2 of both tuples;
`none` models the `IndexError` on a shorter tuple. -/
def compare3 (pix1 pix2 : Pixel) : Option ℤ :=
  match pix1, pix2 with
  | a0 :: a1 :: a2 :: _, b0 :: b1 :: b2 :: _ =>
      some ((a0 - b0) ^ 2 + (a1 - b1) ^ 2 + (a2 - b2) ^ 2)
  | _, _ => none

/-- `compare4`: unchecked accesses to channels 0..3 of both tuples;
`none` models the `IndexError` on a shorter tuple. -/
def compare4 (pix1 pix2 : Pixel) : Option ℤ :=
  match pix1, pix2 with
  | a0 :: a1 :: a2 :: a3 :: _, b0 :: b1 :: b2 :: b3 :: _ =>
      some ((a0 - b0) ^ 2 + (a1 - b1) ^ 2 + (a2 - b2) ^ 2 + (a3 - b3) ^ 2)
  | _, _ => none

/-- The comparison-function selection in `expand`: `compare3` when
`source.bpp == 3`, `compare4` when `source.bpp == 4`, generic `compare`
otherwise. -/
def chooseComp (bpp : ℕ) : Pixel → Pixel → Option ℤ :=
  if bpp = 3 then compare3 else if bpp = 4 then compare4 else compare

/-- One iteration of the `compareRegion` loop body: fetch the two pixels
at `centre + shift` in each texture and compare them. -/
def pixDist (tex1 tex2 : Texture) (cen1 cen2 : ℤ × ℤ)
    (comp : Pixel → Pixel → Option ℤ) (shift : ℤ × ℤ) : Option ℤ := do
  let p1 ← tex1.getPixel cen1 shift
  let p2 ← tex2.getPixel cen2 shift
  comp p1 p2

/-- The accumulation loop of `compareRegion` (`total` starts at 0 and the
loop adds `comp(p1, p2)` for each shift). -/
def regionTotal (tex1 tex2 : Texture) (cen1 cen2 : ℤ × ℤ)
    (region : List (ℤ × ℤ)) (comp : Pixel → Pixel → Option ℤ) : Option ℤ :=
  region.foldl (fun acc shift => do
    let t ← acc
    let d ← pixDist tex1 tex2 cen1 cen2 comp shift
    pure (t + d)) (some 0)

/-- `compareRegion`: `float('inf')` on an empty region, otherwise the
total divided by the region size (`float(total)/len(region)`, modelled as
an exact rational). -/
def compareRegion (tex1 tex2 : Texture) (cen1 cen2 : ℤ × ℤ)
    (region : List (ℤ × ℤ)) (comp : Pixel → Pixel → Option ℤ) : Option Score :=
  if region.length = 0 then some Score.inf
  else (regionTotal tex1 tex2 cen1 cen2 region comp).map
    (fun total => Score.val ((total : ℚ) / (region.length : ℚ)))

/-- The mode-handling step at the top of `expand`:
`target.pic = target.pic.convert(source.pic.mode)` rebinds only the
backing image (its mode, and its own pixel data, which the engine never
reads again before `toImage`); the `pixels`, `bpp` and `valid` attributes
of the target `Texture` are not touched. -/
def modeStep (source target : Texture) : Texture :=
  if target.picMode ≠ source.picMode then { target with picMode := source.picMode }
  else target

/-- The row-major pixel-coordinate list (`slist` / `tlist` in `expand`):
`y` outer, `x` inner. -/
def slist (w h : ℕ) : List (ℤ × ℤ) :=
  (pyRange 0 h).flatMap (fun y => (pyRange 0 w).map (fun x => (x, y)))

/-- The inner source-pixel loop of `expand` for one target pixel: for
each source location, re-filter the target-trimmed neighbourhood
`nearer` against the source, score it with `compareRegion`, and pair the
score with the source pixel value. -/
def stepChoices (source target : Texture) (nearer : List (ℤ × ℤ))
    (comp : Pixel → Pixel → Option ℤ) (tloc : ℤ × ℤ) :
    List (ℤ × ℤ) → Option (List (Score × Pixel))
  | [] => some []
  | sloc :: rest => do
    let nearest := source.goodList sloc nearer source.valid
    let weight ← compareRegion source target sloc tloc nearest comp
    let pix ← source.getPixel sloc (0, 0)
    let restChoices ← stepChoices source target nearer comp tloc rest
    pure ((weight, pix) :: restChoices)

/-- The body of `expand`'s per-target-pixel loop: trim the neighbourhood
against the target, score every source pixel, take the Python `min` of
the `(weight, pixel)` choices, commit the winning value and mark the
pixel valid. -/
def expandStep (source target : Texture) (nearShift : List (ℤ × ℤ))
    (comp : Pixel → Pixel → Option ℤ) (tloc : ℤ × ℤ) : Option Texture :=
  match stepChoices source target (target.goodList tloc nearShift target.valid)
      comp tloc (slist source.width source.height) with
  | none => none
  | some choices =>
    match pyMin choices with
    | none => none
    | some best =>
      match target.setPixel best.2 tloc (0, 0) with
      | none => none
      | some t1 => t1.setValid tloc

/-- `expand` up to the final external `toImage` encoding: the mode step,
the comparison-function choice, and the fold of the per-pixel step over
all target pixels in row-major order. -/
def expand (source target : Texture) (nearShift : List (ℤ × ℤ)) :
    Option Texture :=
  let target1 := modeStep source target
  let comp := chooseComp source.bpp
  (slist target1.width target1.height).foldlM
    (fun t tloc => expandStep source t nearShift comp tloc) target1

/-! ### Concrete example textures used by witnesses and counterexamples -/

/-- A 1×1 RGB source texture with pixel `(10, 20, 30)`, all valid. -/
def srcEx : Texture :=
  { width := 1, height := 1, picMode := "RGB", bpp := 3,
    pixels := [[[10, 20, 30]]], valid := [[true]] }

/-- A 1×1 RGB target texture with pixel `(0, 0, 0)`, all valid. -/
def tgtEx : Texture :=
  { width := 1, height := 1, picMode := "RGB", bpp := 3,
    pixels := [[[0, 0, 0]]], valid := [[true]] }

/-- A 2×1 RGB texture with both pixels zero and both flags false. -/
def texA : Texture :=
  { width := 2, height := 1, picMode := "RGB", bpp := 3,
    pixels := [[[0, 0, 0]], [[0, 0, 0]]], valid := [[false], [false]] }

/-- A 1×1 RGBA source texture with pixel `(10, 20, 30, 40)`, all valid
(what `Texture.init "RGBA" 1 1 [10,20,30,40]` produces). -/
def srcRGBA : Texture :=
  { width := 1, height := 1, picMode := "RGBA", bpp := 4,
    pixels := [[[10, 20, 30, 40]]], valid := [[true]] }

/-- A 1×1 RGB target texture with pixel `(1, 2, 3)`, all valid
(what `Texture.init "RGB" 1 1 [1,2,3]` produces). -/
def tgtRGB : Texture :=
  { width := 1, height := 1, picMode := "RGB", bpp := 3,
    pixels := [[[1, 2, 3]]], valid := [[true]] }

/-! ### Helper lemmas -/

theorem getD_set_self {α : Type} (l : List α) (i : ℕ) (a d : α) (h : i < l.length) :
    (l.set i a).getD i d = a := by
  rw [List.getD_eq_getElem?_getD, List.getElem?_set_self h]
  rfl

theorem getD_set_ne {α : Type} (l : List α) (i j : ℕ) (a d : α) (h : i ≠ j) :
    (l.set i a).getD j d = l.getD j d := by
  rw [List.getD_eq_getElem?_getD, List.getElem?_set_ne h, ← List.getD_eq_getElem?_getD]

theorem getD_mem {α : Type} (l : List α) (i : ℕ) (d : α) (h : i < l.length) :
    l.getD i d ∈ l := by
  rw [List.getD_eq_getElem?_getD, List.getElem?_eq_getElem h]
  exact List.getElem_mem h

theorem getD_replicate {α : Type} (n i : ℕ) (a d : α) (h : i < n) :
    (List.replicate n a).getD i d = a := by
  rw [List.getD_eq_getElem?_getD, List.getElem?_replicate, if_pos h]
  rfl

/-- Unfolding of `goodList` as a filter over the neighbourhood. -/
theorem goodList_eq_filter (t : Texture) (centre : ℤ × ℤ) (nb : List (ℤ × ℤ))
    (v : List (List Bool)) :
    t.goodList centre nb v =
      nb.filter (fun s =>
        t.locTest (centre.1 + s.1, centre.2 + s.2) (0, 0) &&
        validAt v (centre.1 + s.1, centre.2 + s.2)) := by
  induction nb with
  | nil => rfl
  | cons s rest ih =>
    rw [Texture.goodList, List.filter_cons]
    cases h1 : t.locTest (centre.1 + s.1, centre.2 + s.2) (0, 0) <;>
      cases h2 : validAt v (centre.1 + s.1, centre.2 + s.2) <;>
      simp [h1, h2, ih]

theorem mem_goodList {t : Texture} {centre s : ℤ × ℤ} {nb : List (ℤ × ℤ)}
    {v : List (List Bool)} (h : s ∈ t.goodList centre nb v) :
    s ∈ nb ∧ t.locTest (centre.1 + s.1, centre.2 + s.2) (0, 0) = true ∧
      validAt v (centre.1 + s.1, centre.2 + s.2) = true := by
  rw [goodList_eq_filter] at h
  obtain ⟨hmem, hp⟩ := List.mem_filter.mp h
  exact ⟨hmem, by simpa using (Bool.and_eq_true _ _).mp hp⟩

/-- A location test at the shifted point with zero shift is the same as
the test at the original point with the shift. -/
theorem locTest_shift (t : Texture) (centre s : ℤ × ℤ) :
    t.locTest (centre.1 + s.1, centre.2 + s.2) (0, 0) = t.locTest centre s := by
  simp [Texture.locTest]

theorem validAt_replicate_true (w h : ℕ) (p : ℤ × ℤ) (h1 : 0 ≤ p.1) (h2 : p.1 < (w : ℤ))
    (h3 : 0 ≤ p.2) (h4 : p.2 < (h : ℤ)) :
    validAt (List.replicate w (List.replicate h true)) p = true := by
  rw [validAt, getD_replicate w p.1.toNat _ _ (by omega),
    getD_replicate h p.2.toNat _ _ (by omega)]

theorem getD_of_length_le {α : Type} (l : List α) (i : ℕ) (d : α) (h : l.length ≤ i) :
    l.getD i d = d := by
  rw [List.getD_eq_getElem?_getD, List.getElem?_eq_none h]
  rfl

theorem validAt_replicate_false (w h : ℕ) (p : ℤ × ℤ) :
    validAt (List.replicate w (List.replicate h false)) p = false := by
  rw [validAt]
  by_cases hx : p.1.toNat < w
  · rw [getD_replicate w p.1.toNat _ _ hx]
    by_cases hy : p.2.toNat < h
    · rw [getD_replicate h p.2.toNat _ _ hy]
    · rw [getD_of_length_le _ _ _ (by simpa using Nat.le_of_not_lt hy)]
  · rw [getD_of_length_le (List.replicate w (List.replicate h false)) p.1.toNat []
      (by simpa using Nat.le_of_not_lt hx)]
    rfl

/-! ### Claim theorems -/

/-- C5: `goodList` (the spec's `filterNeighbourhood`) returns, in the
shape's iteration order, exactly the offsets whose centre-plus-offset
position is within the grid bounds and marked valid in the mask; with an
all-valid mask it returns every in-bounds shape offset, and with an
all-invalid mask it returns the empty list for every shape and centre. -/
theorem goodList_characterisation (t : Texture) (centre : ℤ × ℤ) (nb : List (ℤ × ℤ))
    (v : List (List Bool)) :
    (t.goodList centre nb v = nb.filter (fun s =>
      t.locTest centre s && validAt v (centre.1 + s.1, centre.2 + s.2))) ∧
    (t.goodList centre nb (List.replicate t.width (List.replicate t.height true)) =
      nb.filter (fun s => t.locTest centre s)) ∧
    (t.goodList centre nb (List.replicate t.width (List.replicate t.height false)) = []) := by
  have base : ∀ v' : List (List Bool), t.goodList centre nb v' = nb.filter (fun s =>
      t.locTest centre s && validAt v' (centre.1 + s.1, centre.2 + s.2)) := by
    intro v'
    rw [goodList_eq_filter]
    exact List.filter_congr (fun s _ => by rw [locTest_shift])
  refine ⟨base v, ?_, ?_⟩
  · rw [base]
    refine List.filter_congr (fun s _ => ?_)
    cases hl : t.locTest centre s with
    | false => simp
    | true =>
      have hb := of_decide_eq_true hl
      simp only [Bool.true_and]
      exact validAt_replicate_true t.width t.height (centre.1 + s.1, centre.2 + s.2)
        hb.1 hb.2.1 hb.2.2.1 hb.2.2.2
  · rw [base]
    refine List.filter_eq_nil_iff.mpr (fun s _ => ?_)
    rw [validAt_replicate_false]
    simp

/-- C3: every offset surviving the double filter (first trimmed at the
target centre against the target's bounds and validity, then at the
source centre against the source's) is in-bounds from both centres, so
both `getPixel` calls inside `compareRegion` pass their `_locTest`
assertion (the `OutOfRange` branch is unreachable). -/
theorem doubleFilter_safe (source target : Texture) (tloc sloc : ℤ × ℤ)
    (shifts : List (ℤ × ℤ)) :
    ∀ shift ∈ source.goodList sloc (target.goodList tloc shifts target.valid)
        source.valid,
      target.locTest tloc shift = true ∧ source.locTest sloc shift = true ∧
      (target.getPixel tloc shift).isSome = true ∧
      (source.getPixel sloc shift).isSome = true := by
  intro shift h
  obtain ⟨hmem, hsloc, _⟩ := mem_goodList h
  obtain ⟨_, htloc, _⟩ := mem_goodList hmem
  rw [locTest_shift] at hsloc htloc
  refine ⟨htloc, hsloc, ?_, ?_⟩ <;> simp [Texture.getPixel, htloc, hsloc]

theorem regionTotal_eq_sum (tex1 tex2 : Texture) (cen1 cen2 : ℤ × ℤ)
    (comp : Pixel → Pixel → Option ℤ) :
    ∀ (region : List (ℤ × ℤ)) (acc : ℤ),
      (∀ s ∈ region, (pixDist tex1 tex2 cen1 cen2 comp s).isSome = true) →
      region.foldl (fun acc shift => do
        let t ← acc
        let d ← pixDist tex1 tex2 cen1 cen2 comp shift
        pure (t + d)) (some acc) =
      some (acc + (region.map
        (fun s => (pixDist tex1 tex2 cen1 cen2 comp s).getD 0)).sum) := by
  intro region
  induction region with
  | nil => intro acc _; simp
  | cons s rest ih =>
    intro acc hall
    obtain ⟨d, hd⟩ := Option.isSome_iff_exists.mp (hall s (List.mem_cons_self s rest))
    rw [List.foldl_cons]
    have hstep : (do
        let t ← some acc
        let d ← pixDist tex1 tex2 cen1 cen2 comp s
        pure (t + d)) = some (acc + d) := by rw [hd]; rfl
    rw [hstep, ih (acc + d) (fun x hx => hall x (List.mem_cons_of_mem s hx)),
      List.map_cons, List.sum_cons, hd]
    simp [add_assoc]

/-- C6: `compareRegion` (the spec's `regionDistance`) returns the
infinity sentinel on an empty offset list, and on a non-empty list whose
per-offset pixel comparisons all succeed it returns the arithmetic mean
(sum divided by count) of the pixel distances. -/
theorem compareRegion_empty_and_mean (tex1 tex2 : Texture) (cen1 cen2 : ℤ × ℤ)
    (comp : Pixel → Pixel → Option ℤ) (region : List (ℤ × ℤ)) :
    compareRegion tex1 tex2 cen1 cen2 [] comp = some Score.inf ∧
    (region ≠ [] →
      (∀ s ∈ region, (pixDist tex1 tex2 cen1 cen2 comp s).isSome = true) →
      compareRegion tex1 tex2 cen1 cen2 region comp =
        some (Score.val
          ((((region.map (fun s => (pixDist tex1 tex2 cen1 cen2 comp s).getD 0)).sum
            : ℤ) : ℚ) / (region.length : ℚ)))) := by
  refine ⟨rfl, fun hne hall => ?_⟩
  rw [compareRegion, if_neg (fun h => hne (List.length_eq_zero.mp h)), regionTotal,
    regionTotal_eq_sum tex1 tex2 cen1 cen2 comp region 0 hall]
  simp

/-- Witness for C6: a singleton region at concrete 1×1 textures gives the
mean `1400/1`, and the empty region gives the infinity sentinel. -/
theorem compareRegion_empty_and_mean_witness :
    compareRegion srcEx tgtEx (0, 0) (0, 0) [((0, 0) : ℤ × ℤ)] compare3 =
      some (Score.val 1400) ∧
    compareRegion srcEx tgtEx (0, 0) (0, 0) [] compare3 = some Score.inf := by
  have h := compareRegion_empty_and_mean srcEx tgtEx (0, 0) (0, 0) compare3 [(0, 0)]
  have hsum : (List.map (fun s => (pixDist srcEx tgtEx (0, 0) (0, 0) compare3 s).getD 0)
      [((0, 0) : ℤ × ℤ)]).sum = 1400 := by decide
  refine ⟨?_, h.1⟩
  rw [h.2 (by decide) (by decide), hsum]
  norm_num

theorem pyRange_length (a b : ℤ) : (pyRange a b).length = (b - a).toNat := by
  simp [pyRange]

theorem mem_pyRange {a b x : ℤ} : x ∈ pyRange a b ↔ a ≤ x ∧ x < b := by
  simp only [pyRange, List.mem_map, List.mem_range]
  constructor
  · rintro ⟨k, hk, rfl⟩
    omega
  · intro h
    exact ⟨(x - a).toNat, by omega, by omega⟩

theorem pyRange_nodup (a b : ℤ) : (pyRange a b).Nodup := by
  refine List.Nodup.map ?_ (List.nodup_range _)
  intro x y h
  dsimp only at h
  omega

theorem pyRange_append (a b c : ℤ) (hab : a ≤ b) (hbc : b ≤ c) :
    pyRange a b ++ pyRange b c = pyRange a c := by
  rw [pyRange, pyRange, pyRange,
    show (c - a).toNat = (b - a).toNat + (c - b).toNat by omega,
    List.range_add, List.map_append, List.map_map]
  congr 1
  refine List.map_congr_left (fun k _ => ?_)
  simp only [Function.comp_apply]
  omega

theorem sum_map_const {α : Type} (l : List α) (g : α → ℕ) (c : ℕ)
    (h : ∀ a ∈ l, g a = c) : (l.map g).sum = l.length * c := by
  induction l with
  | nil => simp
  | cons a t ih =>
    rw [List.map_cons, List.sum_cons, ih (fun x hx => h x (List.mem_cons_of_mem a hx)),
      h a (List.mem_cons_self a t), List.length_cons]
    ring

theorem length_flatMap_const {α β : Type} (l : List α) (f : α → List β) (c : ℕ)
    (h : ∀ a ∈ l, (f a).length = c) : (l.flatMap f).length = l.length * c := by
  rw [List.length_flatMap]
  exact sum_map_const l _ c (fun a ha => h a ha)

/-- C7: the square shape of radius `n ≥ 0` has exactly `(2n+1)²` distinct
offsets including `(0,0)` (radius 0 giving just the origin), and the
causal ell shape has exactly `n·(2n+1) + n` distinct offsets, all
strictly preceding the origin in scan order and never equal to `(0,0)`
(radius 0 giving the empty shape). -/
theorem shapes_spec (n : ℕ) :
    (squareShape n).length = (2 * n + 1) ^ 2 ∧
    (squareShape n).Nodup ∧
    ((0, 0) : ℤ × ℤ) ∈ squareShape n ∧
    squareShape 0 = [((0, 0) : ℤ × ℤ)] ∧
    (ellShape n).length = n * (2 * n + 1) + n ∧
    (ellShape n).Nodup ∧
    ((0, 0) : ℤ × ℤ) ∉ ellShape n ∧
    (∀ p ∈ ellShape (n : ℤ), p.2 < 0 ∨ (p.2 = 0 ∧ p.1 < 0)) ∧
    ellShape 0 = [] := by
  have hinner : (pyRange (-(n : ℤ)) ((n : ℤ) + 1)).length = 2 * n + 1 := by
    rw [pyRange_length]
    omega
  have houter0 : (pyRange (-(n : ℤ)) 0).length = n := by
    rw [pyRange_length]
    omega
  have hellMem : ∀ p ∈ ellShape (n : ℤ), p.2 < 0 ∨ (p.2 = 0 ∧ p.1 < 0) := by
    intro p hp
    rw [ellShape, List.mem_flatMap] at hp
    obtain ⟨j, _, hp⟩ := hp
    rw [List.mem_map] at hp
    obtain ⟨i, hi, rfl⟩ := hp
    rw [List.mem_filter] at hi
    have := hi.2
    simp only [Bool.or_eq_true, Bool.and_eq_true, decide_eq_true_eq] at this
    exact this
  refine ⟨?_, ?_, ?_, by decide, ?_, ?_, ?_, hellMem, by decide⟩
  · rw [squareShape,
      length_flatMap_const _ _ (2 * n + 1)
        (fun i _ => by rw [List.length_map, hinner]),
      hinner]
    ring
  · rw [squareShape, List.nodup_flatMap]
    refine ⟨fun i _ => List.Nodup.map (fun x y h => by simpa using h)
      (pyRange_nodup _ _), ?_⟩
    refine List.Pairwise.imp ?_ (pyRange_nodup (-(n : ℤ)) ((n : ℤ) + 1))
    intro a b hab p hpa hpb
    rw [List.mem_map] at hpa hpb
    obtain ⟨j1, _, h1⟩ := hpa
    obtain ⟨j2, _, h2⟩ := hpb
    exact hab (by rw [← h1] at h2; exact (Prod.mk.injEq _ _ _ _).mp h2.symm |>.1)
  · rw [squareShape, List.mem_flatMap]
    exact ⟨0, mem_pyRange.mpr ⟨by omega, by omega⟩,
      List.mem_map.mpr ⟨0, mem_pyRange.mpr ⟨by omega, by omega⟩, rfl⟩⟩
  · have hsplit : pyRange (-(n : ℤ)) 1 = pyRange (-(n : ℤ)) 0 ++ pyRange 0 1 :=
      (pyRange_append _ _ _ (by omega) (by omega)).symm
    have h01 : pyRange 0 1 = [(0 : ℤ)] := by decide
    rw [ellShape, hsplit, h01, List.flatMap_append, List.length_append,
      length_flatMap_const _ _ (2 * n + 1) ?side, houter0, List.flatMap_cons,
      List.flatMap_nil, List.append_nil, List.length_map]
    case side =>
      intro j hj
      have hjlt : j < 0 := (mem_pyRange.mp hj).2
      rw [List.length_map,
        List.filter_eq_self.mpr (fun i _ => by
          simp only [Bool.or_eq_true, decide_eq_true_eq]
          exact Or.inl hjlt),
        hinner]
    have hfsplit : pyRange (-(n : ℤ)) ((n : ℤ) + 1) =
        pyRange (-(n : ℤ)) 0 ++ pyRange 0 ((n : ℤ) + 1) :=
      (pyRange_append _ _ _ (by omega) (by omega)).symm
    have hpred : (pyRange (-(n : ℤ)) ((n : ℤ) + 1)).filter
          (fun i => decide ((0 : ℤ) < 0) || (decide ((0 : ℤ) = 0) && decide (i < 0))) =
        (pyRange (-(n : ℤ)) ((n : ℤ) + 1)).filter (fun i : ℤ => decide (i < 0)) :=
      List.filter_congr (fun i _ => by simp)
    rw [hpred, hfsplit, List.filter_append,
      List.filter_eq_self.mpr (fun i hi => by
        simp only [decide_eq_true_eq]
        exact (mem_pyRange.mp hi).2),
      List.filter_eq_nil_iff.mpr (fun i hi => by
        simp only [decide_eq_true_eq, not_lt]
        exact (mem_pyRange.mp hi).1),
      List.length_append, houter0]
    simp
  · rw [ellShape, List.nodup_flatMap]
    refine ⟨fun j _ => List.Nodup.map (fun x y h => by simpa using h)
      (List.Nodup.filter _ (pyRange_nodup _ _)), ?_⟩
    refine List.Pairwise.imp ?_ (pyRange_nodup (-(n : ℤ)) 1)
    intro a b hab p hpa hpb
    rw [List.mem_map] at hpa hpb
    obtain ⟨i1, _, h1⟩ := hpa
    obtain ⟨i2, _, h2⟩ := hpb
    exact hab (by rw [← h1] at h2; exact (Prod.mk.injEq _ _ _ _).mp h2.symm |>.2)
  · intro h
    rcases hellMem (0, 0) h with h' | h' <;> omega

/-- Witness for C7 at radius 1 and the concrete ell offset `(-1, -1)`. -/
theorem shapes_spec_witness :
    ((-1, -1) : ℤ × ℤ) ∈ ellShape ((1 : ℕ) : ℤ) ∧
    ((-1 : ℤ) < 0 ∨ ((-1 : ℤ) = 0 ∧ (-1 : ℤ) < 0)) :=
  ⟨by decide, (shapes_spec 1).2.2.2.2.2.2.2.1 (-1, -1) (by decide)⟩

theorem getD_range_map {α : Type} (w x : ℕ) (f : ℕ → α) (d : α) (hx : x < w) :
    ((List.range w).map f).getD x d = f x := by
  rw [List.getD_eq_getElem?_getD, List.getElem?_map, List.getElem?_range hx]
  rfl

theorem flatMap_congr {α β : Type} {l : List α} {f g : α → List β}
    (h : ∀ a ∈ l, f a = g a) : l.flatMap f = l.flatMap g := by
  induction l with
  | nil => rfl
  | cons a t ih =>
    rw [List.flatMap_cons, List.flatMap_cons, h a (List.mem_cons_self a t),
      ih (fun x hx => h x (List.mem_cons_of_mem _ hx))]

/-- Joining consecutive `bpp`-sized chunks of a buffer of length
`bpp * n` recovers the buffer. -/
theorem chunks_flatten (bpp : ℕ) :
    ∀ (n : ℕ) (b : List ℤ), b.length = bpp * n →
      ((List.range n).map (fun p => (b.drop (p * bpp)).take bpp)).flatten = b := by
  intro n
  induction n with
  | zero =>
    intro b hb
    simp only [List.range_zero, List.map_nil, List.flatten_nil]
    exact (List.length_eq_zero.mp (by omega)).symm
  | succ n ih =>
    intro b hb
    rw [List.range_succ_eq_map, List.map_cons, List.map_map, List.flatten_cons]
    have hhead : (b.drop (0 * bpp)).take bpp = b.take bpp := by
      rw [Nat.zero_mul, List.drop_zero]
    have htail : List.map ((fun p => (b.drop (p * bpp)).take bpp) ∘ Nat.succ)
        (List.range n) =
        List.map (fun p => ((b.drop bpp).drop (p * bpp)).take bpp) (List.range n) := by
      refine List.map_congr_left (fun k _ => ?_)
      simp only [Function.comp_apply]
      rw [List.drop_drop]
      congr 2
      rw [Nat.succ_mul]
      omega
    have hb' : (b.drop bpp).length = bpp * n := by
      rw [List.length_drop]
      rw [Nat.mul_succ] at hb
      omega
    rw [hhead, htail, ih (b.drop bpp) hb']
    exact List.take_append_drop bpp b

/-- The row-major double loop over `y` then `x` visits flat indices
`y*w + x` in increasing order. -/
theorem flatMap_range_rowmajor {α : Type} (h w : ℕ) (g : ℕ → α) :
    (List.range h).flatMap (fun y => (List.range w).map (fun x => g (y * w + x))) =
      (List.range (h * w)).map g := by
  induction h with
  | zero => simp
  | succ h ih =>
    rw [List.range_succ, List.flatMap_append, ih, List.flatMap_cons, List.flatMap_nil,
      List.append_nil, Nat.succ_mul, List.range_add, List.map_append, List.map_map]
    rfl

/-- Core of C8: the pixels unpacked by `_pixelList` flatten back, through
`toImage`'s traversal order, to the original byte buffer. -/
theorem pixelList_toImage (bpp w h : ℕ) (b : List ℤ) (t : Texture)
    (hw : t.width = w) (hh : t.height = h)
    (hpx : pixelList bpp w h b = some t.pixels) :
    toImageBytes t = b := by
  rw [pixelList] at hpx
  by_cases hlen : b.length = bpp * w * h
  · rw [if_pos hlen, Option.some.injEq] at hpx
    rw [toImageBytes, hw, hh]
    have hrow : ∀ y ∈ List.range h,
        (List.range w).map (fun x => pixelAt t x y) =
        (List.range w).map (fun x => (b.drop ((y * w + x) * bpp)).take bpp) := by
      intro y hy
      refine List.map_congr_left (fun x hx => ?_)
      rw [pixelAt, ← hpx, getD_range_map w x _ _ (List.mem_range.mp hx),
        getD_range_map h y _ _ (List.mem_range.mp hy)]
    rw [flatMap_congr hrow,
      flatMap_range_rowmajor h w (fun p => (b.drop (p * bpp)).take bpp)]
    exact chunks_flatten bpp (h * w) b (by rw [hlen]; ring)
  · rw [if_neg hlen] at hpx
    exact absurd hpx (by simp)

/-- C8: constructing a `Texture` from a decoded (and canonicalised)
image buffer and immediately serialising it with `toImage` reproduces
the buffer byte for byte: `toImage`'s flattening inverts `_pixelList`'s
unpacking. -/
theorem init_toImage_roundTrip (mode : String) (w h : ℕ) (b : List ℤ) (t : Texture)
    (hinit : Texture.init mode w h b = some t) : toImageBytes t = b := by
  rw [Texture.init] at hinit
  cases hpx : pixelList (if mode ∈ alphaModes then 4 else 3) w h b with
  | none => rw [hpx] at hinit; exact absurd hinit (by simp)
  | some px =>
    rw [hpx] at hinit
    simp only [Option.map_some', Option.some.injEq] at hinit
    subst hinit
    exact pixelList_toImage (if mode ∈ alphaModes then 4 else 3) w h b _ rfl rfl hpx

/-- A 2×2 RGB texture holding the buffer `[1, …, 12]` (what
`Texture.init "RGB" 2 2` produces on it). -/
def tex2x2 : Texture :=
  { width := 2, height := 2, picMode := "RGB", bpp := 3,
    pixels := [[[1, 2, 3], [7, 8, 9]], [[4, 5, 6], [10, 11, 12]]],
    valid := [[true, true], [true, true]] }

/-- Witness for C8 on a concrete 2×2 3-channel image. -/
theorem init_toImage_roundTrip_witness :
    Texture.init "RGB" 2 2 [1, 2, 3, 4, 5, 6, 7, 8, 9, 10, 11, 12] = some tex2x2 ∧
    toImageBytes tex2x2 = [1, 2, 3, 4, 5, 6, 7, 8, 9, 10, 11, 12] :=
  ⟨by decide,
   init_toImage_roundTrip "RGB" 2 2 [1, 2, 3, 4, 5, 6, 7, 8, 9, 10, 11, 12] tex2x2
     (by decide)⟩

theorem length_eq_four {α : Type} {l : List α} :
    l.length = 4 ↔ ∃ a b c d, l = [a, b, c, d] := by
  match l with
  | [] => simp
  | a :: l =>
    constructor
    · intro h
      obtain ⟨b, c, d, rfl⟩ := List.length_eq_three.mp (by simpa using h)
      exact ⟨a, b, c, d, rfl⟩
    · rintro ⟨a', b, c, d, h⟩
      rw [h]
      rfl

/-- C10: the specialised pixel comparison functions agree with the
generic one on tuples of the matching length, so the engine's bpp-based
choice among them never changes the computed score for equal-length
pixel tuples. -/
theorem compare_specialisations (p q : Pixel) :
    (p.length = 3 → q.length = 3 → compare3 p q = compare p q) ∧
    (p.length = 4 → q.length = 4 → compare4 p q = compare p q) ∧
    (∀ bpp : ℕ, p.length = bpp → q.length = bpp → chooseComp bpp p q = compare p q) := by
  have h3 : p.length = 3 → q.length = 3 → compare3 p q = compare p q := by
    intro hp hq
    obtain ⟨a0, a1, a2, rfl⟩ := List.length_eq_three.mp hp
    obtain ⟨b0, b1, b2, rfl⟩ := List.length_eq_three.mp hq
    simp [compare3, compare]
    ring
  have h4 : p.length = 4 → q.length = 4 → compare4 p q = compare p q := by
    intro hp hq
    obtain ⟨a0, a1, a2, a3, rfl⟩ := length_eq_four.mp hp
    obtain ⟨b0, b1, b2, b3, rfl⟩ := length_eq_four.mp hq
    simp [compare4, compare]
    ring
  refine ⟨h3, h4, fun bpp hp hq => ?_⟩
  by_cases e3 : bpp = 3
  · subst e3
    rw [chooseComp, if_pos rfl]
    exact h3 hp hq
  · by_cases e4 : bpp = 4
    · subst e4
      rw [chooseComp, if_neg e3, if_pos rfl]
      exact h4 hp hq
    · rw [chooseComp, if_neg e3, if_neg e4]

/-- Witness for C10 at concrete 3- and 4-tuples. -/
theorem compare_specialisations_witness :
    compare3 [1, 2, 3] [4, 5, 6] = compare [1, 2, 3] [4, 5, 6] ∧
    compare4 [1, 2, 3, 4] [5, 6, 7, 8] = compare [1, 2, 3, 4] [5, 6, 7, 8] ∧
    chooseComp 3 [1, 2, 3] [4, 5, 6] = compare [1, 2, 3] [4, 5, 6] :=
  ⟨(compare_specialisations [1, 2, 3] [4, 5, 6]).1 rfl rfl,
   (compare_specialisations [1, 2, 3, 4] [5, 6, 7, 8]).2.1 rfl rfl,
   (compare_specialisations [1, 2, 3] [4, 5, 6]).2.2 3 rfl rfl⟩

/-- Witness for C3 at a concrete pair of 1×1 textures and the zero
offset. -/
theorem doubleFilter_safe_witness :
    ((0, 0) : ℤ × ℤ) ∈ srcEx.goodList (0, 0)
        (tgtEx.goodList (0, 0) [((0, 0) : ℤ × ℤ)] tgtEx.valid) srcEx.valid ∧
    (tgtEx.getPixel (0, 0) (0, 0)).isSome = true ∧
    (srcEx.getPixel (0, 0) (0, 0)).isSome = true :=
  ⟨by decide,
   ((doubleFilter_safe srcEx tgtEx (0, 0) (0, 0) [(0, 0)] (0, 0) (by decide)).2.2)⟩


theorem scoreLe_refl (a : Score) : scoreLe a a = true := by
  cases a <;> simp [scoreLe]

theorem scoreLe_trans {a b c : Score} (h1 : scoreLe a b = true)
    (h2 : scoreLe b c = true) : scoreLe a c = true := by
  cases a <;> cases b <;> cases c <;> simp [scoreLe] at h1 h2 ⊢ <;> try linarith

theorem scoreLt_le {a b : Score} (h : scoreLt a b = true) : scoreLe a b = true := by
  cases a <;> cases b <;> simp [scoreLt, scoreLe] at h ⊢ <;> linarith

theorem scoreLt_false_le {a b : Score} (h : scoreLt a b = false) :
    scoreLe b a = true := by
  cases a <;> cases b <;> simp [scoreLt, scoreLe] at h ⊢ <;> linarith

theorem scoreLe_val_ne_inf {q : ℚ} {s : Score} (h : scoreLe s (Score.val q) = true) :
    s ≠ Score.inf := by
  cases s <;> simp [scoreLe] at h ⊢

theorem choiceLt_scoreLe {a b : Score × Pixel} (h : choiceLt a b = true) :
    scoreLe a.1 b.1 = true := by
  rw [choiceLt] at h
  split at h
  · exact scoreLt_le (by assumption)
  · split at h
    · rename_i heq
      rw [heq]
      exact scoreLe_refl _
    · exact absurd h (by simp)

theorem choiceLt_false_scoreLe {a b : Score × Pixel} (h : choiceLt a b = false) :
    scoreLe b.1 a.1 = true := by
  rw [choiceLt] at h
  split at h
  · exact absurd h (by simp)
  · exact scoreLt_false_le (by rename_i hlt; exact Bool.not_eq_true _ ▸ Bool.of_not_eq_true hlt)

theorem foldl_min_mem (cs : List (Score × Pixel)) (c : Score × Pixel) :
    cs.foldl (fun m x => if choiceLt x m then x else m) c = c ∨
    cs.foldl (fun m x => if choiceLt x m then x else m) c ∈ cs := by
  induction cs generalizing c with
  | nil => exact Or.inl rfl
  | cons a t ih =>
    rw [List.foldl_cons]
    rcases ih (if choiceLt a c then a else c) with h | h
    · rw [h]
      by_cases hc : choiceLt a c = true
      · right
        rw [if_pos hc]
        exact List.mem_cons_self _ _
      · left
        rw [if_neg hc]
    · right
      exact List.mem_cons_of_mem a h

theorem foldl_min_le (cs : List (Score × Pixel)) (c : Score × Pixel) :
    scoreLe (cs.foldl (fun m x => if choiceLt x m then x else m) c).1 c.1 = true ∧
    ∀ x ∈ cs,
      scoreLe (cs.foldl (fun m x => if choiceLt x m then x else m) c).1 x.1 = true := by
  induction cs generalizing c with
  | nil => exact ⟨scoreLe_refl _, by simp⟩
  | cons a t ih =>
    rw [List.foldl_cons]
    by_cases hc : choiceLt a c = true
    · rw [if_pos hc]
      obtain ⟨h1, h2⟩ := ih a
      refine ⟨scoreLe_trans h1 (choiceLt_scoreLe hc), ?_⟩
      intro x hx
      rcases List.mem_cons.mp hx with rfl | hx
      · exact h1
      · exact h2 x hx
    · rw [if_neg hc]
      obtain ⟨h1, h2⟩ := ih c
      refine ⟨h1, ?_⟩
      intro x hx
      rcases List.mem_cons.mp hx with rfl | hx
      · exact scoreLe_trans h1
          (choiceLt_false_scoreLe (Bool.not_eq_true _ ▸ eq_false_of_ne_true hc))
      · exact h2 x hx

/-- Python `min` on a non-empty choices list returns an element of the
list whose score is minimal among all scores. -/
theorem pyMin_spec (cs : List (Score × Pixel)) (hne : cs ≠ []) :
    ∃ best, pyMin cs = some best ∧ best ∈ cs ∧
      ∀ x ∈ cs, scoreLe best.1 x.1 = true := by
  match cs, hne with
  | c :: rest, _ =>
    refine ⟨rest.foldl (fun m x => if choiceLt x m then x else m) c, rfl, ?_, ?_⟩
    · rcases foldl_min_mem rest c with h | h
      · rw [h]
        exact List.mem_cons_self _ _
      · exact List.mem_cons_of_mem _ h
    · intro x hx
      obtain ⟨h1, h2⟩ := foldl_min_le rest c
      rcases List.mem_cons.mp hx with rfl | hx
      · exact h1
      · exact h2 x hx

theorem setPixel_some {t : Texture} {value : Pixel} {loc shift : ℤ × ℤ} {t1 : Texture}
    (h : t.setPixel value loc shift = some t1) :
    t.locTest loc shift = true ∧ value.length = t.bpp ∧
    t1.width = t.width ∧ t1.height = t.height ∧ t1.bpp = t.bpp ∧
    t1.picMode = t.picMode ∧ t1.valid = t.valid ∧
    t1.pixels = t.pixels.set (loc.1 + shift.1).toNat
      ((t.pixels.getD (loc.1 + shift.1).toNat []).set (loc.2 + shift.2).toNat value) := by
  rw [Texture.setPixel] at h
  by_cases hc : t.locTest loc shift = true ∧ value.length = t.bpp
  · rw [if_pos hc, Option.some.injEq] at h
    subst h
    exact ⟨hc.1, hc.2, rfl, rfl, rfl, rfl, rfl, rfl⟩
  · rw [if_neg hc] at h
    exact absurd h (by simp)

theorem setValid_some {t t1 : Texture} {loc : ℤ × ℤ} (h : t.setValid loc = some t1) :
    t1.pixels = t.pixels ∧ t1.width = t.width ∧ t1.height = t.height ∧
    t1.bpp = t.bpp ∧ t1.picMode = t.picMode ∧
    ∃ x y, pyIdx t.valid.length loc.1 = some x ∧
      pyIdx ((t.valid.getD x []).length) loc.2 = some y ∧
      t1.valid = t.valid.set x ((t.valid.getD x []).set y true) := by
  rw [Texture.setValid] at h
  cases hx : pyIdx t.valid.length loc.1 with
  | none =>
    rw [hx] at h
    exact absurd h (by simp)
  | some x =>
    rw [hx] at h
    dsimp only at h
    cases hy : pyIdx ((t.valid.getD x []).length) loc.2 with
    | none =>
      rw [hy] at h
      exact absurd h (by simp)
    | some y =>
      rw [hy] at h
      dsimp only at h
      rw [Option.some.injEq] at h
      subst h
      exact ⟨rfl, rfl, rfl, rfl, rfl, x, y, rfl, hy, rfl⟩

/-- `locTest` only depends on the grid dimensions. -/
theorem locTest_congr {t1 t2 : Texture} (hw : t1.width = t2.width)
    (hh : t1.height = t2.height) (p s : ℤ × ℤ) : t1.locTest p s = t2.locTest p s := by
  rw [Texture.locTest, Texture.locTest, hw, hh]

/-- C2: whenever the choices list for a target pixel is computed
(one entry per source pixel) and is non-empty, Python `min` selects an
element whose score is minimal over all candidates, a candidate with the
infinity sentinel is never selected while some candidate has a finite
score, the selection always succeeds (deterministically), and a
successful `expandStep` commits exactly the selected candidate's pixel
value at the target location. -/
theorem expandStep_commits_min (source target : Texture) (nearShift : List (ℤ × ℤ))
    (comp : Pixel → Pixel → Option ℤ) (tloc : ℤ × ℤ) (cs : List (Score × Pixel))
    (hwf : TexWF target)
    (hcs : stepChoices source target (target.goodList tloc nearShift target.valid)
      comp tloc (slist source.width source.height) = some cs)
    (hne : cs ≠ []) :
    ∃ best, pyMin cs = some best ∧ best ∈ cs ∧
      (∀ c ∈ cs, scoreLe best.1 c.1 = true) ∧
      ((∃ c ∈ cs, c.1 ≠ Score.inf) → best.1 ≠ Score.inf) ∧
      ∀ t1, expandStep source target nearShift comp tloc = some t1 →
        t1.getPixel tloc (0, 0) = some best.2 := by
  obtain ⟨best, hmin, hmem, hle⟩ := pyMin_spec cs hne
  refine ⟨best, hmin, hmem, hle, ?_, ?_⟩
  · rintro ⟨c, hc, hcfin⟩
    cases hc1 : c.1 with
    | inf => exact absurd hc1 hcfin
    | val q => exact scoreLe_val_ne_inf (hc1 ▸ hle c hc)
  · intro t1 hstep
    rw [expandStep, hcs] at hstep
    dsimp only at hstep
    rw [hmin] at hstep
    dsimp only at hstep
    cases hset : target.setPixel best.2 tloc (0, 0) with
    | none =>
      rw [hset] at hstep
      exact absurd hstep (by simp)
    | some t2 =>
      rw [hset] at hstep
      dsimp only at hstep
      obtain ⟨hloc, hlen, hw2, hh2, _, _, _, hpix2⟩ := setPixel_some hset
      obtain ⟨hpix1, hw1, hh1, _, _, _⟩ := setValid_some hstep
      have hbounds := of_decide_eq_true hloc
      have hx : (tloc.1 + (0 : ℤ)).toNat < target.pixels.length := by
        rw [hwf.1]
        omega
      have hcol : (target.pixels.getD (tloc.1 + (0 : ℤ)).toNat []).length =
          target.height := hwf.2.1 _ (getD_mem _ _ _ hx)
      have hy : (tloc.2 + (0 : ℤ)).toNat <
          (target.pixels.getD (tloc.1 + (0 : ℤ)).toNat []).length := by
        rw [hcol]
        omega
      rw [Texture.getPixel,
        if_pos (by rw [locTest_congr (hw1.trans hw2) (hh1.trans hh2)]; exact hloc),
        hpix1, hpix2, Option.some.injEq]
      rw [getD_set_self _ _ _ _ hx, getD_set_self _ _ _ _ hy]

/-- Witness for C2: at concrete 1×1 textures with an empty neighbourhood
every candidate scores the infinity sentinel, and the step still selects
and commits one deterministically. -/
theorem expandStep_commits_min_witness :
    ∃ best, pyMin [(Score.inf, ([10, 20, 30] : Pixel))] = some best ∧
      best ∈ [(Score.inf, ([10, 20, 30] : Pixel))] ∧
      (∀ c ∈ [(Score.inf, ([10, 20, 30] : Pixel))], scoreLe best.1 c.1 = true) ∧
      ((∃ c ∈ [(Score.inf, ([10, 20, 30] : Pixel))], c.1 ≠ Score.inf) →
        best.1 ≠ Score.inf) ∧
      ∀ t1, expandStep srcEx tgtEx [] compare3 (0, 0) = some t1 →
        t1.getPixel (0, 0) (0, 0) = some best.2 :=
  expandStep_commits_min srcEx tgtEx [] compare3 (0, 0)
    [(Score.inf, [10, 20, 30])] (by decide) (by decide) (by decide)

/-- Writing a value into a doubly-indexed list changes exactly the
addressed cell. -/
theorem getD2_set {α : Type} (L : List (List α)) (x y : ℕ) (v d : α)
    (hx : x < L.length) (hy : y < (L.getD x []).length) (a b : ℕ) :
    ((L.set x ((L.getD x []).set y v)).getD a []).getD b d =
      if a = x ∧ b = y then v else (L.getD a []).getD b d := by
  by_cases hax : a = x
  · subst hax
    rw [getD_set_self _ _ _ _ hx]
    by_cases hby : b = y
    · subst hby
      rw [if_pos ⟨rfl, rfl⟩, getD_set_self _ _ _ _ hy]
    · rw [if_neg (fun hc => hby hc.2), getD_set_ne _ _ _ _ _ (fun hc => hby hc.symm)]
  · rw [if_neg (fun hc => hax hc.1), getD_set_ne _ _ _ _ _ (fun hc => hax hc.symm)]

/-- C9: on an in-bounds coordinate, `setPixel` rewrites exactly the
addressed pixel tuple, leaving every other pixel, every validity flag
and all grid metadata unchanged, and `setValid` sets exactly the
addressed flag, leaving every pixel and every other flag unchanged. -/
theorem setPixel_setValid_frame (t : Texture) (value : Pixel) (loc shift loc2 : ℤ × ℤ)
    (hwf : TexWF t) (hloc : t.locTest loc shift = true) (hlen : value.length = t.bpp)
    (hloc2 : t.locTest loc2 (0, 0) = true) :
    (∃ t1, t.setPixel value loc shift = some t1 ∧
      t1.valid = t.valid ∧ t1.width = t.width ∧ t1.height = t.height ∧
      t1.bpp = t.bpp ∧ t1.picMode = t.picMode ∧
      pixelAt t1 (loc.1 + shift.1).toNat (loc.2 + shift.2).toNat = value ∧
      (∀ a b : ℕ, ¬(a = (loc.1 + shift.1).toNat ∧ b = (loc.2 + shift.2).toNat) →
        pixelAt t1 a b = pixelAt t a b)) ∧
    (∃ t2, t.setValid loc2 = some t2 ∧
      t2.pixels = t.pixels ∧ t2.width = t.width ∧ t2.height = t.height ∧
      t2.bpp = t.bpp ∧ t2.picMode = t.picMode ∧
      flagAt t2 loc2.1.toNat loc2.2.toNat = true ∧
      (∀ a b : ℕ, ¬(a = loc2.1.toNat ∧ b = loc2.2.toNat) →
        flagAt t2 a b = flagAt t a b)) := by
  have hb := of_decide_eq_true hloc
  have hb2 := of_decide_eq_true hloc2
  constructor
  · have hx : (loc.1 + shift.1).toNat < t.pixels.length := by
      rw [hwf.1]
      omega
    have hy : (loc.2 + shift.2).toNat < (t.pixels.getD (loc.1 + shift.1).toNat []).length := by
      rw [hwf.2.1 _ (getD_mem _ _ _ hx)]
      omega
    have hset : t.setPixel value loc shift = some
        { t with pixels := t.pixels.set (loc.1 + shift.1).toNat
                    ((t.pixels.getD (loc.1 + shift.1).toNat []).set
                      (loc.2 + shift.2).toNat value) } := by
      rw [Texture.setPixel, if_pos ⟨hloc, hlen⟩]
    refine ⟨_, hset, rfl, rfl, rfl, rfl, rfl, ?_, ?_⟩
    · simp only [pixelAt]
      rw [getD2_set _ _ _ _ _ hx hy, if_pos ⟨rfl, rfl⟩]
    · intro a b hab
      simp only [pixelAt]
      rw [getD2_set _ _ _ _ _ hx hy, if_neg hab]
  · have hvx : (loc2.1).toNat < t.valid.length := by
      rw [hwf.2.2.1]
      omega
    have hvy : (loc2.2).toNat < (t.valid.getD loc2.1.toNat []).length := by
      rw [hwf.2.2.2 _ (getD_mem _ _ _ hvx)]
      omega
    have hidx : pyIdx t.valid.length loc2.1 = some loc2.1.toNat := by
      rw [pyIdx, if_pos ⟨by omega, by omega⟩]
    have hidy : pyIdx ((t.valid.getD loc2.1.toNat []).length) loc2.2 =
        some loc2.2.toNat := by
      rw [pyIdx, if_pos ⟨by omega, by omega⟩]
    have hset : t.setValid loc2 = some
        { t with valid := t.valid.set loc2.1.toNat
                    ((t.valid.getD loc2.1.toNat []).set loc2.2.toNat true) } := by
      rw [Texture.setValid, hidx]
      dsimp only
      rw [hidy]
    refine ⟨_, hset, rfl, rfl, rfl, rfl, rfl, ?_, ?_⟩
    · simp only [flagAt]
      rw [getD2_set _ _ _ _ _ hvx hvy, if_pos ⟨rfl, rfl⟩]
    · intro a b hab
      simp only [flagAt]
      rw [getD2_set _ _ _ _ _ hvx hvy, if_neg hab]

/-- Witness for C9 at a concrete 1×1 texture. -/
theorem setPixel_setValid_frame_witness :
    (∃ t1, tgtEx.setPixel [9, 9, 9] (0, 0) (0, 0) = some t1 ∧
      pixelAt t1 ((0 : ℤ) + (0 : ℤ)).toNat ((0 : ℤ) + (0 : ℤ)).toNat = [9, 9, 9] ∧
      t1.valid = tgtEx.valid) ∧
    (∃ t2, tgtEx.setValid (0, 0) = some t2 ∧ t2.pixels = tgtEx.pixels ∧
      flagAt t2 (0 : ℤ).toNat (0 : ℤ).toNat = true) := by
  obtain ⟨⟨t1, h1, h2, _, _, _, _, h7, _⟩, ⟨t2, g1, g2, _, _, _, _, g7, _⟩⟩ :=
    setPixel_setValid_frame tgtEx [9, 9, 9] (0, 0) (0, 0) (0, 0)
      (by decide) (by decide) (by decide) (by decide)
  exact ⟨⟨t1, h1, h7, h2⟩, ⟨t2, g1, g2, g7⟩⟩

theorem pyIdx_oob {n : ℕ} {i : ℤ} (h : i < -(n : ℤ) ∨ (n : ℤ) ≤ i) : pyIdx n i = none := by
  rw [pyIdx, if_neg (by omega), if_neg (by omega)]

theorem pyIdx_wrap {n : ℕ} {i : ℤ} (h1 : -(n : ℤ) ≤ i) (h2 : i < (n : ℤ)) :
    pyIdx n i = some (i % (n : ℤ)).toNat := by
  rw [pyIdx]
  by_cases h0 : 0 ≤ i
  · rw [if_pos ⟨h0, h2⟩, Int.emod_eq_of_lt h0 h2]
  · have hmod : i % (n : ℤ) = i + n := by
      have hstep : (i + (n : ℤ) * 1) % (n : ℤ) = i % (n : ℤ) :=
        Int.add_mul_emod_self_left i (n : ℤ) 1
      rw [mul_one] at hstep
      rw [← hstep, Int.emod_eq_of_lt (by omega) (by omega)]
    rw [if_neg (fun hc => h0 hc.1), if_pos ⟨h1, by omega⟩, hmod]

/-- Counterexample to C4 as stated: on the 2×1 all-invalid grid `texA`,
the out-of-bounds coordinate `(-1, 0)` does not make `setValid` fail;
Python's negative indexing wraps and the call silently sets the flag of
pixel `(1, 0)`. -/
theorem setValid_oob_counterexample :
    (¬ (0 ≤ (-1 : ℤ))) ∧
    (texA.setValid (-1, 0)).isSome = true ∧
    (texA.setValid (-1, 0)).map (fun t1 => flagAt t1 1 0) = some true ∧
    flagAt texA 1 0 = false := by decide

/-- C4 (amended): `setValid` performs no bounds check of its own, so it
follows Python list-indexing semantics: a coordinate component in
`[-size, size)` is wrapped modulo the size (so for in-bounds coordinates
the addressed flag is set, a pointwise no-op when already true, and for
negative components the wrapped pixel's flag is set), while a component
outside `[-size, size)` raises `IndexError` and leaves every flag
unchanged. -/
theorem setValid_behaviour (t : Texture) (loc : ℤ × ℤ) (hwf : TexWF t) :
    ((loc.1 < -(t.width : ℤ) ∨ (t.width : ℤ) ≤ loc.1) → t.setValid loc = none) ∧
    ((-(t.width : ℤ) ≤ loc.1 ∧ loc.1 < (t.width : ℤ)) →
      (loc.2 < -(t.height : ℤ) ∨ (t.height : ℤ) ≤ loc.2) → t.setValid loc = none) ∧
    ((-(t.width : ℤ) ≤ loc.1 ∧ loc.1 < (t.width : ℤ) ∧
      -(t.height : ℤ) ≤ loc.2 ∧ loc.2 < (t.height : ℤ)) →
      ∃ t1, t.setValid loc = some t1 ∧ t1.pixels = t.pixels ∧
        t1.width = t.width ∧ t1.height = t.height ∧ t1.bpp = t.bpp ∧
        t1.picMode = t.picMode ∧
        flagAt t1 (loc.1 % (t.width : ℤ)).toNat (loc.2 % (t.height : ℤ)).toNat = true ∧
        (∀ a b : ℕ, ¬(a = (loc.1 % (t.width : ℤ)).toNat ∧
            b = (loc.2 % (t.height : ℤ)).toNat) →
          flagAt t1 a b = flagAt t a b) ∧
        (flagAt t (loc.1 % (t.width : ℤ)).toNat (loc.2 % (t.height : ℤ)).toNat = true →
          ∀ a b : ℕ, flagAt t1 a b = flagAt t a b)) := by
  refine ⟨?_, ?_, ?_⟩
  · intro h
    rw [Texture.setValid, hwf.2.2.1, pyIdx_oob h]
  · intro h1 h2
    rw [Texture.setValid, hwf.2.2.1, pyIdx_wrap h1.1 h1.2]
    dsimp only
    have hvx : (loc.1 % (t.width : ℤ)).toNat < t.valid.length := by
      rw [hwf.2.2.1]
      have : 0 ≤ loc.1 % (t.width : ℤ) ∧ loc.1 % (t.width : ℤ) < (t.width : ℤ) := by
        constructor
        · exact Int.emod_nonneg loc.1 (by omega)
        · exact Int.emod_lt_of_pos loc.1 (by omega)
      omega
    rw [hwf.2.2.2 _ (getD_mem _ _ _ hvx), pyIdx_oob h2]
  · intro h
    have hwpos : 0 < t.width := by omega
    have hmx : 0 ≤ loc.1 % (t.width : ℤ) ∧ loc.1 % (t.width : ℤ) < (t.width : ℤ) :=
      ⟨Int.emod_nonneg loc.1 (by omega), Int.emod_lt_of_pos loc.1 (by omega)⟩
    have hmy : 0 ≤ loc.2 % (t.height : ℤ) ∧ loc.2 % (t.height : ℤ) < (t.height : ℤ) :=
      ⟨Int.emod_nonneg loc.2 (by omega), Int.emod_lt_of_pos loc.2 (by omega)⟩
    have hvx : (loc.1 % (t.width : ℤ)).toNat < t.valid.length := by
      rw [hwf.2.2.1]
      omega
    have hvy : (loc.2 % (t.height : ℤ)).toNat <
        (t.valid.getD (loc.1 % (t.width : ℤ)).toNat []).length := by
      rw [hwf.2.2.2 _ (getD_mem _ _ _ hvx)]
      omega
    have hidy : pyIdx ((t.valid.getD (loc.1 % (t.width : ℤ)).toNat []).length) loc.2 =
        some (loc.2 % (t.height : ℤ)).toNat := by
      rw [hwf.2.2.2 _ (getD_mem _ _ _ hvx)]
      exact pyIdx_wrap h.2.2.1 h.2.2.2
    have hframe : ∀ a b : ℕ, ¬(a = (loc.1 % (t.width : ℤ)).toNat ∧
        b = (loc.2 % (t.height : ℤ)).toNat) →
        ((t.valid.set (loc.1 % (t.width : ℤ)).toNat
          ((t.valid.getD (loc.1 % (t.width : ℤ)).toNat []).set
            (loc.2 % (t.height : ℤ)).toNat true)).getD a []).getD b false =
          flagAt t a b := by
      intro a b hab
      rw [flagAt, getD2_set _ _ _ _ _ hvx hvy, if_neg hab]
    have hset : t.setValid loc = some
        { t with valid := t.valid.set (loc.1 % (t.width : ℤ)).toNat
                    ((t.valid.getD (loc.1 % (t.width : ℤ)).toNat []).set
                      (loc.2 % (t.height : ℤ)).toNat true) } := by
      rw [Texture.setValid, hwf.2.2.1, pyIdx_wrap h.1 h.2.1]
      dsimp only
      rw [hidy]
    refine ⟨_, hset, rfl, rfl, rfl, rfl, rfl, ?_, ?_, ?_⟩
    · simp only [flagAt]
      rw [getD2_set _ _ _ _ _ hvx hvy, if_pos ⟨rfl, rfl⟩]
    · intro a b hab
      simp only [flagAt]
      exact hframe a b hab
    · intro htrue a b
      by_cases hab : a = (loc.1 % (t.width : ℤ)).toNat ∧
          b = (loc.2 % (t.height : ℤ)).toNat
      · simp only [flagAt]
        rw [getD2_set _ _ _ _ _ hvx hvy, if_pos hab, hab.1, hab.2]
        exact htrue.symm
      · simp only [flagAt]
        exact hframe a b hab

/-- Witness for C4's amended theorem: the wrap case at `(-1, 0)` on the
2×1 grid `texA` sets the flag at wrapped position `(1, 0)`. -/
theorem setValid_behaviour_witness :
    ∃ t1, texA.setValid (-1, 0) = some t1 ∧
      flagAt t1 (((-1 : ℤ) % (texA.width : ℤ)).toNat)
        (((0 : ℤ) % (texA.height : ℤ)).toNat) = true := by
  obtain ⟨t1, h1, _, _, _, _, _, h7, _, _⟩ :=
    (setValid_behaviour texA (-1, 0) (by decide)).2.2 (by constructor <;> decide)
  exact ⟨t1, h1, h7⟩

/-- C1 as a code bug, evaluated at a concrete failing input: with an
RGBA source and an RGB target, the mode step rebinds only `target.pic`
(the mode string), leaving `target.pixels` as 3-tuples and `target.bpp`
at 3, so the engine's chosen comparison function `compare4` receives a
3-tuple (an `IndexError`, not an equal-length comparison) and the whole
expansion fails instead of comparing equal-length tuples. -/
theorem modeStep_mode_mismatch :
    Texture.init "RGBA" 1 1 [10, 20, 30, 40] = some srcRGBA ∧
    Texture.init "RGB" 1 1 [1, 2, 3] = some tgtRGB ∧
    srcRGBA.bpp = 4 ∧ tgtRGB.bpp = 3 ∧ tgtRGB.picMode ≠ srcRGBA.picMode ∧
    (modeStep srcRGBA tgtRGB).picMode = srcRGBA.picMode ∧
    (modeStep srcRGBA tgtRGB).bpp = 3 ∧
    (modeStep srcRGBA tgtRGB).pixels = tgtRGB.pixels ∧
    ((modeStep srcRGBA tgtRGB).getPixel (0, 0) (0, 0)).map List.length = some 3 ∧
    (srcRGBA.getPixel (0, 0) (0, 0)).map List.length = some 4 ∧
    chooseComp srcRGBA.bpp = compare4 ∧
    compare4 [10, 20, 30, 40] [1, 2, 3] = none ∧
    expandStep srcRGBA (modeStep srcRGBA tgtRGB) (squareShape 1)
      (chooseComp srcRGBA.bpp) (0, 0) = none ∧
    expand srcRGBA tgtRGB (squareShape 1) = none :=
  ⟨by decide, by decide, by decide, by decide, by decide, by decide, by decide,
   by decide, by decide, by decide, rfl, by decide, by decide, by decide⟩

end TextureCritter
